import Mathlib

/-!
Verification of the accountant CSV record store (src/accountant/database/db.py
and src/accountant/database/entry.py) against its natural-language
specification.  The Python code is shallowly embedded: the backing CSV file is
a list of records (each record a list of cell strings), entries carry the
runtime values of the pydantic model fields, and the text conversions that the
csv module and pydantic perform (str() on Decimal, datetime, str enums and
None; parsing those texts back) are modelled character by character.
-/

namespace Accountant

/-! ### Digit and character utilities (model of Python number-to-text) -/

/-- Numeric value of a decimal digit character. -/
def digitVal (c : Char) : Nat := c.toNat - 48

/-- Character of a decimal digit. -/
def digitChar (d : Nat) : Char := Char.ofNat (48 + d)

/-- Test for an ASCII decimal digit. -/
def isDig (c : Char) : Bool := decide (48 ≤ c.toNat) && decide (c.toNat ≤ 57)

/-- Little-endian base-10 digits, with explicit fuel so that it reduces. -/
def digitsAux : Nat → Nat → List Nat
  | 0, _ => []
  | _ + 1, 0 => []
  | fuel + 1, n + 1 => (n + 1) % 10 :: digitsAux fuel ((n + 1) / 10)

/-- Decimal digit characters of a natural number, most significant first;
zero prints as "0", mirroring the coefficient text of a Python int. -/
def natChars (n : Nat) : List Char :=
  if n = 0 then ['0'] else ((digitsAux n n).map digitChar).reverse

/-- Value of a most-significant-first digit character list. -/
def msbVal (cs : List Char) : Nat := Nat.ofDigits 10 ((cs.map digitVal).reverse)

/-- Greedy split of a leading run of digit characters. -/
def takeDigs : List Char → List Char × List Char
  | [] => ([], [])
  | c :: cs =>
    if isDig c then
      let p := takeDigs cs
      (c :: p.1, p.2)
    else ([], c :: cs)

/-- Zero padding to a given width, as a %0Nd format in Python. -/
def padChars (w n : Nat) : List Char :=
  List.replicate (w - (natChars n).length) '0' ++ natChars n

/-- True when the list does not begin with a digit character. -/
def headNotDig : List Char → Bool
  | [] => true
  | c :: _ => !isDig c

/-- Read a nonempty run of digits as a natural number. -/
def readNat (cs : List Char) : Option (Nat × List Char) :=
  let p := takeDigs cs
  if p.1.isEmpty then none else some (msbVal p.1, p.2)

/-- Read a number followed by the given punctuation character. -/
def readNatThen (w : Char) (cs : List Char) : Option (Nat × List Char) :=
  match readNat cs with
  | some (n, c :: rest) => if c == w then some (n, rest) else none
  | _ => none

/-- Read a number followed by a date-time separator (space or T). -/
def readNatSep (cs : List Char) : Option (Nat × List Char) :=
  match readNat cs with
  | some (n, c :: rest) => if c == ' ' || c == 'T' then some (n, rest) else none
  | _ => none

/-! ### Model of datetime.datetime: str() output and ISO-8601 style parsing -/

/-- Components of a (naive) Python datetime. -/
structure DateTime where
  year : Nat
  month : Nat
  day : Nat
  hour : Nat
  minute : Nat
  second : Nat
  micro : Nat
deriving DecidableEq, Repr

/-- Text of str(datetime): zero-padded components, a space separator, and a
six-digit fraction only when the microsecond field is nonzero. -/
def dtChars (d : DateTime) : List Char :=
  padChars 4 d.year ++ '-' ::
    (padChars 2 d.month ++ '-' ::
      (padChars 2 d.day ++ ' ' ::
        (padChars 2 d.hour ++ ':' ::
          (padChars 2 d.minute ++ ':' ::
            (padChars 2 d.second ++
              (if d.micro = 0 then [] else '.' :: padChars 6 d.micro))))))

/-- Parse of an ISO-8601 date-time text as the pydantic datetime validator
accepts it for the texts this store produces: T or space separator, optional
fraction of at most six digits scaled to microseconds. -/
def parseDTChars (cs : List Char) : Option DateTime :=
  match readNatThen '-' cs with
  | none => none
  | some (y, cs1) =>
  match readNatThen '-' cs1 with
  | none => none
  | some (mo, cs2) =>
  match readNatSep cs2 with
  | none => none
  | some (da, cs3) =>
  match readNatThen ':' cs3 with
  | none => none
  | some (h, cs4) =>
  match readNatThen ':' cs4 with
  | none => none
  | some (mi, cs5) =>
  match readNat cs5 with
  | none => none
  | some (s, cs6) =>
  match cs6 with
  | [] => some ⟨y, mo, da, h, mi, s, 0⟩
  | c :: r =>
    if c == '.' then
      match takeDigs r with
      | (ds, r2) =>
        if ds.isEmpty || decide (6 < ds.length) || !r2.isEmpty then none
        else some ⟨y, mo, da, h, mi, s, msbVal ds * 10 ^ (6 - ds.length)⟩
    else none

/-! ### Model of decimal.Decimal: finite values, str() output and parsing

A finite Decimal is a signed integer coefficient together with an exponent;
its numeric value is the coefficient times ten to the exponent.  The str()
algorithm below transliterates the positional/scientific choice made by
decimal.__str__, and the parser follows the numeric-literal grammar of the
Decimal constructor (sign, digits, optional fraction, optional exponent). -/

/-- Strip a leading sign character, returning whether it was a minus. -/
def splitSign : List Char → Bool × List Char
  | [] => (false, [])
  | c :: r =>
    if c == '-' then (true, r)
    else if c == '+' then (false, r)
    else (false, c :: r)

/-- Tail of a Decimal literal after an E marker: signed exponent digits. -/
def decExpTail (m : Int) (fplen : Nat) (r : List Char) : Option (Int × Int) :=
  let s := splitSign r
  let t := takeDigs s.2
  if t.1.isEmpty || !t.2.isEmpty then none
  else
    some (m, (if s.1 then -(msbVal t.1 : Int) else (msbVal t.1 : Int)) - (fplen : Int))

/-- Tail of a Decimal literal after coefficient and fraction: either the end
of the text or an exponent marker. -/
def decExpPart (m : Int) (fplen : Nat) (cs3 : List Char) : Option (Int × Int) :=
  match cs3 with
  | [] => some (m, -(fplen : Int))
  | c :: r => if c == 'E' || c == 'e' then decExpTail m fplen r else none

/-- Combine integer and fraction digit runs of a Decimal literal. -/
def decTail (neg : Bool) (ip fp cs3 : List Char) : Option (Int × Int) :=
  if ip.isEmpty && fp.isEmpty then none
  else
    decExpPart (if neg then -(msbVal (ip ++ fp) : Int) else (msbVal (ip ++ fp) : Int))
      fp.length cs3

/-- Optional fraction of a Decimal literal. -/
def decFrac (neg : Bool) (ip : List Char) (cs2 : List Char) : Option (Int × Int) :=
  match cs2 with
  | [] => decTail neg ip [] []
  | c :: r =>
    if c == '.' then decTail neg ip (takeDigs r).1 (takeDigs r).2
    else decTail neg ip [] (c :: r)

/-- Parse of a finite Decimal literal, as the Decimal constructor reads it. -/
def parseDecChars (cs : List Char) : Option (Int × Int) :=
  decFrac (splitSign cs).1 (takeDigs (splitSign cs).2).1 (takeDigs (splitSign cs).2).2

/-- Place of the decimal point chosen by decimal.__str__: positional (at the
adjusted position) when the exponent is at most zero and the adjusted
exponent is above minus six, scientific (after the first digit) otherwise. -/
def decDotplace (e L : Int) : Int := if e ≤ 0 ∧ -6 < e + L then e + L else 1

/-- Digits of str(Decimal) with the point inserted at the chosen place. -/
def decBody (D : List Char) (dotplace : Int) : List Char :=
  if dotplace ≤ 0 then '0' :: '.' :: (List.replicate (-dotplace).toNat '0' ++ D)
  else if (D.length : Int) ≤ dotplace then D ++ List.replicate (dotplace - D.length).toNat '0'
  else D.take dotplace.toNat ++ '.' :: D.drop dotplace.toNat

/-- Exponent marker of str(Decimal): absent in the positional case, a signed
E suffix otherwise. -/
def decExpChars (leftdigits dotplace : Int) : List Char :=
  if leftdigits = dotplace then []
  else
    'E' :: ((if leftdigits - dotplace < 0 then ['-'] else ['+']) ++
      natChars (leftdigits - dotplace).natAbs)

/-- Text of str(Decimal) for a finite value: optional sign, then coefficient
digits with the point placed by decDotplace, then the exponent marker. -/
def decChars (m : Int) (e : Int) : List Char :=
  (if m < 0 then ['-'] else []) ++
    (decBody (natChars m.natAbs) (decDotplace e ((natChars m.natAbs).length : Int)) ++
      decExpChars (e + ((natChars m.natAbs).length : Int))
        (decDotplace e ((natChars m.natAbs).length : Int)))

/-! ### Runtime values of the entry schema (src/accountant/database/entry.py) -/

/-- Cash-flow classification, a Python StrEnum with three literals. -/
inductive FlowType
  | credit
  | debit
  | savings
deriving DecidableEq, Repr

/-- String value of a FlowType member; a StrEnum prints as its value. -/
def flowStr : FlowType → String
  | .credit => "credit"
  | .debit => "debit"
  | .savings => "savings"

/-- Runtime value a field of the pydantic Entry model can hold: None, a
string, a finite Decimal (coefficient and exponent), a datetime, or a
FlowType member. -/
inductive Value
  | vNone
  | vStr (s : String)
  | vDec (m : Int) (e : Int)
  | vDT (d : DateTime)
  | vFlow (f : FlowType)
deriving DecidableEq, Repr

/-- Numeric equality of two finite Decimals (coefficient times ten to the
exponent), as the Python == on Decimal compares values. -/
def decValEq (m1 e1 m2 e2 : Int) : Bool :=
  if e2 ≤ e1 then m1 * 10 ^ (e1 - e2).toNat == m2 else m1 == m2 * 10 ^ (e2 - e1).toNat

/-- Python == on the schema value universe: None equals None, strings compare
as strings, a StrEnum member equals its value string, Decimals compare
numerically, datetimes compare componentwise; values of unrelated kinds are
unequal. -/
def pyEq : Value → Value → Bool
  | .vNone, .vNone => true
  | .vStr a, .vStr b => a == b
  | .vStr a, .vFlow f => a == flowStr f
  | .vFlow f, .vStr a => flowStr f == a
  | .vFlow a, .vFlow b => a == b
  | .vDec m1 e1, .vDec m2 e2 => decValEq m1 e1 m2 e2
  | .vDT a, .vDT b => a == b
  | _, _ => false

/-- The pydantic Entry model: one financial transaction.  Fields hold the
runtime values the model was validated with (entry.py lines 23-38). -/
structure Entry where
  id : Value
  date_time : Value
  name : Value
  amount : Value
  reason : Value
  tag : Value
  flow_type : Value
deriving DecidableEq, Repr

/-- Python == on two Entry models: fieldwise == (pydantic model equality). -/
def entryEqB (a b : Entry) : Bool :=
  pyEq a.id b.id && pyEq a.date_time b.date_time && pyEq a.name b.name &&
    pyEq a.amount b.amount && pyEq a.reason b.reason && pyEq a.tag b.tag &&
    pyEq a.flow_type b.flow_type

/-- The schema field list, derived from the Entry model declaration order
(db.py line 108: list(Entry.model_fields.keys())). -/
def field_names : List String :=
  ["id", "date_time", "name", "amount", "reason", "tag", "flow_type"]

/-- getattr on an Entry for a schema field name; none when the record type
has no such field (hasattr false / AttributeError site). -/
def getattrE (e : Entry) (f : String) : Option Value :=
  if f == "id" then some e.id
  else if f == "date_time" then some e.date_time
  else if f == "name" then some e.name
  else if f == "amount" then some e.amount
  else if f == "reason" then some e.reason
  else if f == "tag" then some e.tag
  else if f == "flow_type" then some e.flow_type
  else none

/-- setattr on an Entry for a schema field name; pydantic does not validate
on assignment, so the raw value is stored.  Unknown names leave the entry
unchanged (the source only calls setattr under a hasattr guard). -/
def setattrE (e : Entry) (f : String) (v : Value) : Entry :=
  if f == "id" then { e with id := v }
  else if f == "date_time" then { e with date_time := v }
  else if f == "name" then { e with name := v }
  else if f == "amount" then { e with amount := v }
  else if f == "reason" then { e with reason := v }
  else if f == "tag" then { e with tag := v }
  else if f == "flow_type" then { e with flow_type := v }
  else e

/-! ### Cell text: what csv.DictWriter writes for each runtime value -/

/-- str() conversion the csv writer applies to a cell value; None becomes the
empty string. -/
def strV : Value → String
  | .vNone => ""
  | .vStr s => s
  | .vDec m e => String.mk (decChars m e)
  | .vDT d => String.mk (dtChars d)
  | .vFlow f => flowStr f

/-- Row of an Entry in schema field order (model_dump then DictWriter). -/
def serializeEntry (e : Entry) : List String :=
  [strV e.id, strV e.date_time, strV e.name, strV e.amount, strV e.reason,
    strV e.tag, strV e.flow_type]

/-! ### Row parsing: csv.DictReader rows fed to the Entry constructor

A DictReader row is a mapping from every header name to its cell (None for
cells a short row is missing).  Entry(**row) then validates each field in
declaration order.  Errors raised along the way are collected in one error
type; a missing key for the id and date_time fields would invoke their
nondeterministic default factories (uuid4, now), which never happens for a
row that carries the full schema header, so it is modelled as a validation
failure. -/

/-- Error conditions the store can signal. -/
inductive Err
  | notFound
  | validationError
  | attributeError
  | typeError
  | valueError
deriving DecidableEq, Repr

/-- The DictReader mapping of one data row against the header. -/
def rowDict (header row : List String) : List (String × Option String) :=
  header.zip (row.map some ++ List.replicate (header.length - row.length) none)

/-- Lookup of a key in a DictReader mapping. -/
def dlookup (k : String) : List (String × Option String) → Option (Option String)
  | [] => none
  | (k2, v) :: r => if k2 == k then some v else dlookup k r

/-- Validation of the id field (str or None; a cell string is kept as is). -/
def idField : Option (Option String) → Except Err Value
  | some (some s) => .ok (.vStr s)
  | some none => .ok .vNone
  | none => .error .validationError

/-- Validation of the date_time field (datetime or None; a cell string must
parse as a datetime, so the empty text a None was written as is rejected). -/
def dateTimeField : Option (Option String) → Except Err Value
  | some (some s) =>
    match parseDTChars s.data with
    | some dt => .ok (.vDT dt)
    | none => .error .validationError
  | some none => .ok .vNone
  | none => .error .validationError

/-- Validation of a required str field (name, reason). -/
def requiredStrField : Option (Option String) → Except Err Value
  | some (some s) => .ok (.vStr s)
  | _ => .error .validationError

/-- Validation of the amount field (Decimal; defaults to Decimal() = 0). -/
def amountField : Option (Option String) → Except Err Value
  | some (some s) =>
    match parseDecChars s.data with
    | some (m, x) => .ok (.vDec m x)
    | none => .error .validationError
  | some none => .error .validationError
  | none => .ok (.vDec 0 0)

/-- Validation of the tag field (str or None, defaulting to None). -/
def tagField : Option (Option String) → Except Err Value
  | some (some s) => .ok (.vStr s)
  | some none => .ok .vNone
  | none => .ok .vNone

/-- Validation of the flow_type field (FlowType by value, default credit). -/
def flowField : Option (Option String) → Except Err Value
  | some (some s) =>
    if s == "credit" then .ok (.vFlow .credit)
    else if s == "debit" then .ok (.vFlow .debit)
    else if s == "savings" then .ok (.vFlow .savings)
    else .error .validationError
  | some none => .error .validationError
  | none => .ok (.vFlow .credit)

/-- Entry(**row) for one DictReader row.  A row longer than the header puts
its extra cells under the None rest key, which the keyword expansion rejects
with a TypeError. -/
def parseRow (header row : List String) : Except Err Entry :=
  if header.length < row.length then .error .typeError
  else
    let d := rowDict header row
    match idField (dlookup "id" d) with
    | .error er => .error er
    | .ok idv =>
    match dateTimeField (dlookup "date_time" d) with
    | .error er => .error er
    | .ok dtv =>
    match requiredStrField (dlookup "name" d) with
    | .error er => .error er
    | .ok nmv =>
    match amountField (dlookup "amount" d) with
    | .error er => .error er
    | .ok amv =>
    match requiredStrField (dlookup "reason" d) with
    | .error er => .error er
    | .ok rsv =>
    match tagField (dlookup "tag" d) with
    | .error er => .error er
    | .ok tgv =>
    match flowField (dlookup "flow_type" d) with
    | .error er => .error er
    | .ok flv => .ok ⟨idv, dtv, nmv, amv, rsv, tgv, flv⟩

/-- The list comprehension of read_all: parse every data row in order,
propagating the first error. -/
def parseRows (header : List String) : List (List String) → Except Err (List Entry)
  | [] => .ok []
  | r :: rs =>
    match parseRow header r with
    | .error er => .error er
    | .ok e =>
      match parseRows header rs with
      | .error er => .error er
      | .ok es => .ok (e :: es)

/-! ### The store itself (db.py, class CSVDataBase)

The backing file is modelled as its list of csv records (None when the file
does not exist); the first record of a nonempty file is the header the
DictReader consumes. -/

/-- Content of the backing csv file: one record per line. -/
abbrev CsvFile := List (List String)

/-- Predicate of a read/delete Query (db.py lines 38-50). -/
structure Query where
  where_ : String
  value : Value

/-- Instruction of an update (db.py lines 21-35). -/
structure UpdateCondition where
  where_ : String
  value : Value
  with_new_value : Value

/-- Condition given to delete: a Query or a concrete Entry. -/
inductive DelCond
  | byQuery (q : Query)
  | byEntry (e : Entry)

/-- read_all (db.py lines 132-150): FileNotFoundError when the file does not
exist, otherwise every row parsed to an Entry in file order. -/
def read_all (fs : Option CsvFile) : Except Err (List Entry) :=
  match fs with
  | none => .error .notFound
  | some [] => .ok []
  | some (header :: rows) => parseRows header rows

/-- write (db.py lines 152-184): open in append mode, creating the file when
absent; write the header first when the file size is zero; then append one
row per entry.  Returns the new file content and the success flag. -/
def write (fs : Option CsvFile) (entries : List Entry) : Option CsvFile × Bool :=
  let content := fs.getD []
  let withHeader := if content.isEmpty then [field_names] else content
  (some (withHeader ++ entries.map serializeEntry), true)

/-- The hasattr-guarded equality test of get_by and update (db.py lines
202-205 and 230-233). -/
def queryMatches (e : Entry) (w : String) (v : Value) : Bool :=
  match getattrE e w with
  | some x => pyEq x v
  | none => false

/-- get_by (db.py lines 186-216): read everything inside a try, filter by the
guarded equality; any exception, and also an empty entry list, give None. -/
def get_by (fs : Option CsvFile) (q : Query) : Option (List Entry) :=
  match read_all fs with
  | .error _ => none
  | .ok data =>
    if data.isEmpty then none
    else some (data.filter fun e => queryMatches e q.where_ q.value)

/-- update (db.py lines 218-243): read_all outside the try (its errors
propagate), mutate matching entries in memory, persist through write (which
appends), return true when the entry list was nonempty and false otherwise. -/
def update (fs : Option CsvFile) (c : UpdateCondition) :
    Option CsvFile × Except Err Bool :=
  match read_all fs with
  | .error er => (fs, .error er)
  | .ok data =>
    if data.isEmpty then (fs, .ok false)
    else
      let data2 := data.map fun e =>
        if queryMatches e c.where_ c.value then setattrE e c.where_ c.with_new_value else e
      ((write fs data2).1, .ok true)

/-- The per-row match test of delete (db.py lines 272-282): a Query is tested
with getattr and no hasattr guard, so an unknown field raises AttributeError;
an Entry is matched by id only. -/
def delMatch (cond : DelCond) (e : Entry) : Except Err Bool :=
  match cond with
  | .byQuery q =>
    match getattrE e q.where_ with
    | some x => .ok (pyEq x q.value)
    | none => .error .attributeError
  | .byEntry ent => .ok (pyEq e.id ent.id)

/-- DictWriter.writerow on a surviving DictReader row (db.py line 284): keys
outside the schema raise ValueError, missing keys fall back to the empty
rest value, and a None cell is written as empty text. -/
def rowOut (header row : List String) : Except Err (List String) :=
  if header.all (fun h => field_names.contains h) then
    .ok (field_names.map fun f => ((dlookup f (rowDict header row)).getD none).getD "")
  else .error .valueError

/-- The row loop of delete: parse each row, test the condition, count out the
matches and copy every other row to the temporary file. -/
def deleteRows (cond : DelCond) (header : List String) :
    List (List String) → Except Err (List (List String))
  | [] => .ok []
  | row :: rest =>
    match parseRow header row with
    | .error er => .error er
    | .ok e =>
      match delMatch cond e with
      | .error er => .error er
      | .ok true => deleteRows cond header rest
      | .ok false =>
        match rowOut header row with
        | .error er => .error er
        | .ok out =>
          match deleteRows cond header rest with
          | .error er => .error er
          | .ok outs => .ok (out :: outs)

/-- delete (db.py lines 245-292): false without touching anything when the
file does not exist; otherwise stream the rows into a temporary file behind
a fresh header and atomically replace the original on success.  An exception
in the loop propagates and the original file stays in place. -/
def delete (fs : Option CsvFile) (cond : DelCond) :
    Option CsvFile × Except Err Bool :=
  match fs with
  | none => (none, .ok false)
  | some [] => (some [field_names], .ok true)
  | some (header :: rows) =>
    match deleteRows cond header rows with
    | .ok out => (some (field_names :: out), .ok true)
    | .error er => (some (header :: rows), .error er)

/-- Iterated write calls, threading the file state. -/
def writeSeq (fs : Option CsvFile) : List (List Entry) → Option CsvFile
  | [] => fs
  | es :: rest => writeSeq (write fs es).1 rest

/-- Concatenation of the batches of a write sequence. -/
def concatAll : List (List Entry) → List Entry
  | [] => []
  | es :: rest => es ++ concatAll rest

/-- The boolean the delete loop tests for one parsed entry: field equality
for a Query, id equality for an Entry condition. -/
def delPred (cond : DelCond) (e : Entry) : Bool :=
  match cond with
  | .byQuery q => queryMatches e q.where_ q.value
  | .byEntry ent => pyEq e.id ent.id

/-- Entries whose fields hold values of their declared types with every
optional field populated: id and tag hold strings and date_time holds a
datetime whose microsecond field is in range (an invariant of the Python
datetime type). -/
def populatedEntry (e : Entry) : Bool :=
  (match e.id with | .vStr _ => true | _ => false) &&
  (match e.date_time with | .vDT d => decide (d.micro < 1000000) | _ => false) &&
  (match e.name with | .vStr _ => true | _ => false) &&
  (match e.amount with | .vDec _ _ => true | _ => false) &&
  (match e.reason with | .vStr _ => true | _ => false) &&
  (match e.tag with | .vStr _ => true | _ => false) &&
  (match e.flow_type with | .vFlow _ => true | _ => false)

/-- Equality test on Except values, for concrete evaluation in witnesses. -/
instance exceptDecEq {ε α : Type} [DecidableEq ε] [DecidableEq α] :
    DecidableEq (Except ε α) := fun x y =>
  match x, y with
  | .error a, .error b =>
    if h : a = b then .isTrue (by rw [h]) else .isFalse (by simp [h])
  | .error _, .ok _ => .isFalse (by simp)
  | .ok _, .error _ => .isFalse (by simp)
  | .ok a, .ok b =>
    if h : a = b then .isTrue (by rw [h]) else .isFalse (by simp [h])

/-! ### Digit lemmas: text of a number reads back as the number -/

theorem digitsAux_eq_digits : ∀ fuel n : Nat, n ≤ fuel → digitsAux fuel n = Nat.digits 10 n := by
  intro fuel
  induction fuel with
  | zero =>
    intro n h
    have hn : n = 0 := Nat.le_zero.mp h
    subst hn
    simp [digitsAux]
  | succ f ih =>
    intro n h
    match n with
    | 0 => simp [digitsAux]
    | m + 1 =>
      have hpos : 0 < m + 1 := Nat.succ_pos m
      have hlt : (m + 1) / 10 < m + 1 := Nat.div_lt_self hpos (by norm_num)
      rw [digitsAux, Nat.digits_def' (by norm_num : (1 : Nat) < 10) hpos,
        ih ((m + 1) / 10) (by omega)]

theorem digitVal_digitChar {d : Nat} (h : d < 10) : digitVal (digitChar d) = d := by
  interval_cases d <;> rfl

theorem isDig_digitChar {d : Nat} (h : d < 10) : isDig (digitChar d) = true := by
  interval_cases d <;> rfl

theorem msbVal_natChars (n : Nat) : msbVal (natChars n) = n := by
  by_cases h : n = 0
  · subst h; rfl
  · unfold natChars msbVal
    rw [if_neg h, digitsAux_eq_digits n n le_rfl, List.map_reverse,
      List.reverse_reverse, List.map_map]
    have hmap : (Nat.digits 10 n).map (digitVal ∘ digitChar) = Nat.digits 10 n := by
      have := List.map_congr_left (l := Nat.digits 10 n)
        (f := digitVal ∘ digitChar) (g := id)
        (fun d hd => digitVal_digitChar (Nat.digits_lt_base (by norm_num) hd))
      rw [this, List.map_id]
    rw [hmap, Nat.ofDigits_digits]

theorem natChars_all_isDig (n : Nat) : ∀ c ∈ natChars n, isDig c = true := by
  intro c hc
  unfold natChars at hc
  split at hc
  · rw [List.mem_singleton] at hc
    subst hc
    rfl
  · rw [digitsAux_eq_digits n n le_rfl, List.mem_reverse, List.mem_map] at hc
    obtain ⟨d, hd, rfl⟩ := hc
    exact isDig_digitChar (Nat.digits_lt_base (by norm_num) hd)

theorem natChars_ne_nil (n : Nat) : natChars n ≠ [] := by
  unfold natChars
  split
  · simp
  · rename_i h
    simp [digitsAux_eq_digits n n le_rfl, Nat.digits_ne_nil_iff_ne_zero, h]

theorem takeDigs_append (ds rest : List Char) (h1 : ∀ c ∈ ds, isDig c = true)
    (h2 : headNotDig rest = true) : takeDigs (ds ++ rest) = (ds, rest) := by
  induction ds with
  | nil =>
    simp only [List.nil_append]
    cases rest with
    | nil => rfl
    | cons c r =>
      have h2' : isDig c = false := by
        unfold headNotDig at h2
        simpa using h2
      simp [takeDigs, h2']
  | cons c cs ih =>
    have hc : isDig c = true := h1 c (List.mem_cons_self c cs)
    have ih2 := ih fun x hx => h1 x (List.mem_cons_of_mem c hx)
    simp [takeDigs, hc, ih2]

theorem takeDigs_all (ds : List Char) (h1 : ∀ c ∈ ds, isDig c = true) :
    takeDigs ds = (ds, []) := by
  have h := takeDigs_append ds [] h1 rfl
  simpa using h

theorem msbVal_append (a b : List Char) :
    msbVal (a ++ b) = msbVal a * 10 ^ b.length + msbVal b := by
  unfold msbVal
  rw [List.map_append, List.reverse_append, Nat.ofDigits_append]
  simp only [List.length_reverse, List.length_map]
  ring

theorem msbVal_replicate_zero (k : Nat) : msbVal (List.replicate k '0') = 0 := by
  induction k with
  | zero => rfl
  | succ n ih =>
    rw [List.replicate_succ', msbVal_append, ih]
    decide

theorem replicate_zero_all_isDig (k : Nat) :
    ∀ c ∈ List.replicate k '0', isDig c = true := by
  intro c hc
  rw [List.eq_of_mem_replicate hc]
  rfl

theorem msbVal_padChars (w n : Nat) : msbVal (padChars w n) = n := by
  unfold padChars
  rw [msbVal_append, msbVal_replicate_zero, msbVal_natChars]
  ring

theorem padChars_all_isDig (w n : Nat) : ∀ c ∈ padChars w n, isDig c = true := by
  intro c hc
  unfold padChars at hc
  rw [List.mem_append] at hc
  rcases hc with hc | hc
  · exact replicate_zero_all_isDig _ c hc
  · exact natChars_all_isDig n c hc

theorem padChars_ne_nil (w n : Nat) : padChars w n ≠ [] := by
  unfold padChars
  intro h
  rcases List.append_eq_nil.mp h with ⟨-, h2⟩
  exact natChars_ne_nil n h2

theorem natChars_length_le {n k : Nat} (hk : 0 < k) (h : n < 10 ^ k) :
    (natChars n).length ≤ k := by
  unfold natChars
  split
  · simpa using hk
  · rename_i hn
    rw [digitsAux_eq_digits n n le_rfl]
    simp only [List.length_reverse, List.length_map]
    rw [Nat.digits_len 10 n (by norm_num) hn]
    have := Nat.log_lt_of_lt_pow hn h
    omega

theorem padChars_length {w n : Nat} (h : (natChars n).length ≤ w) :
    (padChars w n).length = w := by
  unfold padChars
  simp only [List.length_append, List.length_replicate]
  omega

theorem padChars_isEmpty (w n : Nat) : (padChars w n).isEmpty = false := by
  rw [List.isEmpty_eq_false]
  exact padChars_ne_nil w n

theorem readNat_padChars (w n : Nat) (rest : List Char) (h : headNotDig rest = true) :
    readNat (padChars w n ++ rest) = some (n, rest) := by
  unfold readNat
  rw [takeDigs_append _ _ (padChars_all_isDig w n) h]
  simp [padChars_isEmpty, msbVal_padChars]

theorem readNatThen_pad_dash (w n : Nat) (rest : List Char) :
    readNatThen '-' (padChars w n ++ '-' :: rest) = some (n, rest) := by
  unfold readNatThen
  rw [readNat_padChars w n ('-' :: rest) rfl]
  simp

theorem readNatThen_pad_colon (w n : Nat) (rest : List Char) :
    readNatThen ':' (padChars w n ++ ':' :: rest) = some (n, rest) := by
  unfold readNatThen
  rw [readNat_padChars w n (':' :: rest) rfl]
  simp

theorem readNatSep_pad_space (w n : Nat) (rest : List Char) :
    readNatSep (padChars w n ++ ' ' :: rest) = some (n, rest) := by
  unfold readNatSep
  rw [readNat_padChars w n (' ' :: rest) rfl]
  simp

theorem readNat_pad_nil (w n : Nat) : readNat (padChars w n) = some (n, []) := by
  have h := readNat_padChars w n [] rfl
  simpa using h

theorem readNat_pad_dot (w n : Nat) (rest : List Char) :
    readNat (padChars w n ++ '.' :: rest) = some (n, '.' :: rest) :=
  readNat_padChars w n ('.' :: rest) rfl

theorem takeDigs_pad_nil (w n : Nat) : takeDigs (padChars w n) = (padChars w n, []) :=
  takeDigs_all _ (padChars_all_isDig w n)

/-- Round trip of a datetime through its str() text, for any datetime with a
microsecond field in range (an invariant of the Python datetime type). -/
theorem parseDT_dtChars (d : DateTime) (h : d.micro < 1000000) :
    parseDTChars (dtChars d) = some d := by
  obtain ⟨y, mo, da, hh, mi, ss, us⟩ := d
  simp only at h
  unfold dtChars parseDTChars
  simp only
  by_cases hm : us = 0
  · rw [if_pos hm]
    simp only [readNatThen_pad_dash, readNatSep_pad_space, readNatThen_pad_colon,
      List.append_nil, readNat_pad_nil]
    rw [hm]
  · rw [if_neg hm]
    simp only [readNatThen_pad_dash, readNatSep_pad_space, readNatThen_pad_colon,
      readNat_pad_dot, takeDigs_pad_nil]
    have hlen : (padChars 6 us).length = 6 :=
      padChars_length (natChars_length_le (by norm_num) (by omega))
    simp [padChars_isEmpty, hlen, msbVal_padChars]

theorem natChars_isEmpty (n : Nat) : (natChars n).isEmpty = false := by
  rw [List.isEmpty_eq_false]
  exact natChars_ne_nil n

theorem natChars_length_pos (n : Nat) : 0 < (natChars n).length :=
  List.length_pos.mpr (natChars_ne_nil n)

theorem splitSign_digit {c : Char} (hc : isDig c = true) (r : List Char) :
    splitSign (c :: r) = (false, c :: r) := by
  have h1 : (c == '-') = false := by
    rw [beq_eq_false_iff_ne]
    intro h
    subst h
    revert hc
    decide
  have h2 : (c == '+') = false := by
    rw [beq_eq_false_iff_ne]
    intro h
    subst h
    revert hc
    decide
  simp [splitSign, h1, h2]

theorem decBody_cons (n : Nat) (dp : Int) :
    ∃ c r, decBody (natChars n) dp = c :: r ∧ isDig c = true := by
  obtain ⟨c, D2, hD⟩ := List.exists_cons_of_ne_nil (natChars_ne_nil n)
  have hdig : isDig c = true :=
    natChars_all_isDig n c (by rw [hD]; exact List.mem_cons_self c D2)
  unfold decBody
  rw [hD]
  split
  · exact ⟨'0', _, rfl, by decide⟩
  · split
    · exact ⟨c, _, rfl, hdig⟩
    · rename_i h1 h2
      have h3 : dp.toNat = (dp.toNat - 1) + 1 := by omega
      rw [h3, List.take_succ_cons]
      exact ⟨c, _, rfl, hdig⟩

theorem splitSign_decBody (n : Nat) (dp : Int) (rest : List Char) :
    splitSign (decBody (natChars n) dp ++ rest) =
      (false, decBody (natChars n) dp ++ rest) := by
  obtain ⟨c, r, hcr, hdig⟩ := decBody_cons n dp
  rw [hcr, List.cons_append, splitSign_digit hdig]

theorem decExpTail_sci (m : Int) (fplen : Nat) (x : Int) :
    decExpTail m fplen ((if x < 0 then ['-'] else ['+']) ++ natChars x.natAbs) =
      some (m, x - (fplen : Int)) := by
  have ht := takeDigs_all (natChars x.natAbs) (natChars_all_isDig _)
  by_cases hx : x < 0
  · rw [if_pos hx, List.singleton_append]
    have hs : splitSign ('-' :: natChars x.natAbs) = (true, natChars x.natAbs) := rfl
    simp only [decExpTail, hs, ht, natChars_isEmpty, List.isEmpty_nil, Bool.not_true,
      Bool.or_false, Bool.false_or, Bool.false_eq_true, if_false, if_true,
      msbVal_natChars, ite_true, ite_false]
    simp only [Option.some.injEq, Prod.mk.injEq, true_and]
    omega
  · rw [if_neg hx, List.singleton_append]
    have hs : splitSign ('+' :: natChars x.natAbs) = (false, natChars x.natAbs) := rfl
    simp only [decExpTail, hs, ht, natChars_isEmpty, List.isEmpty_nil, Bool.not_true,
      Bool.or_false, Bool.false_or, Bool.false_eq_true, if_false, if_true,
      msbVal_natChars, ite_true, ite_false]
    simp only [Option.some.injEq, Prod.mk.injEq, true_and]
    omega

theorem decTail_noexp (neg : Bool) (ip fp : List Char)
    (h : (ip.isEmpty && fp.isEmpty) = false) :
    decTail neg ip fp [] =
      some (if neg then -(msbVal (ip ++ fp) : Int) else (msbVal (ip ++ fp) : Int),
        -(fp.length : Int)) := by
  simp only [decTail, h, Bool.false_eq_true, if_false]
  rfl

theorem decTail_sci (neg : Bool) (ip fp : List Char) (x : Int)
    (h : (ip.isEmpty && fp.isEmpty) = false) :
    decTail neg ip fp
        ('E' :: ((if x < 0 then ['-'] else ['+']) ++ natChars x.natAbs)) =
      some (if neg then -(msbVal (ip ++ fp) : Int) else (msbVal (ip ++ fp) : Int),
        x - (fp.length : Int)) := by
  have h2 : ∀ m : Int, decExpPart m fp.length
      ('E' :: ((if x < 0 then ['-'] else ['+']) ++ natChars x.natAbs)) =
      decExpTail m fp.length ((if x < 0 then ['-'] else ['+']) ++ natChars x.natAbs) := by
    intro m
    simp [decExpPart]
  simp only [decTail, h, Bool.false_eq_true, if_false, h2, decExpTail_sci]

theorem decFrac_dot (neg : Bool) (ip r fp cs3 : List Char) (h : takeDigs r = (fp, cs3)) :
    decFrac neg ip ('.' :: r) = decTail neg ip fp cs3 := by
  simp [decFrac, h]

theorem decFrac_nil (neg : Bool) (ip : List Char) :
    decFrac neg ip [] = decTail neg ip [] [] := rfl

theorem decFrac_E (neg : Bool) (ip r : List Char) :
    decFrac neg ip ('E' :: r) = decTail neg ip [] ('E' :: r) := by
  simp [decFrac]

/-- The parse of the coefficient-and-exponent part of str(Decimal), behind
the sign: the unsigned text reads back as the natural coefficient and the
original exponent. -/
theorem decFrac_decBody (neg : Bool) (n : Nat) (e : Int) :
    decFrac neg
        (takeDigs (decBody (natChars n) (decDotplace e ((natChars n).length : Int)) ++
          decExpChars (e + ((natChars n).length : Int))
            (decDotplace e ((natChars n).length : Int)))).1
        (takeDigs (decBody (natChars n) (decDotplace e ((natChars n).length : Int)) ++
          decExpChars (e + ((natChars n).length : Int))
            (decDotplace e ((natChars n).length : Int)))).2 =
      some (if neg then -(n : Int) else (n : Int), e) := by
  have hLpos : 0 < (natChars n).length := natChars_length_pos n
  set L : Int := ((natChars n).length : Int) with hLdef
  have hL1 : 1 ≤ L := by rw [hLdef]; exact_mod_cast hLpos
  by_cases hp : e ≤ 0 ∧ -6 < e + L
  · have hdp : decDotplace e L = e + L := if_pos hp
    have hexp : decExpChars (e + L) (e + L) = [] := by simp [decExpChars]
    rw [hdp, hexp, List.append_nil]
    by_cases h0 : e + L ≤ 0
    · -- a leading "0." and padding zeros before all coefficient digits
      have hbody : decBody (natChars n) (e + L) =
          '0' :: '.' :: (List.replicate (-(e + L)).toNat '0' ++ natChars n) := by
        unfold decBody
        rw [if_pos h0]
      have hR : ∀ c ∈ List.replicate (-(e + L)).toNat '0' ++ natChars n,
          isDig c = true := by
        intro c hc
        rcases List.mem_append.mp hc with hc | hc
        · exact replicate_zero_all_isDig _ c hc
        · exact natChars_all_isDig n c hc
      have htd : takeDigs ('0' :: '.' ::
          (List.replicate (-(e + L)).toNat '0' ++ natChars n)) =
          (['0'], '.' :: (List.replicate (-(e + L)).toNat '0' ++ natChars n)) := by
        have h := takeDigs_append ['0']
          ('.' :: (List.replicate (-(e + L)).toNat '0' ++ natChars n))
          (by intro c hc; rw [List.mem_singleton] at hc; subst hc; rfl) rfl
        simpa using h
      have hguard : (List.isEmpty ['0'] &&
          (List.replicate (-(e + L)).toNat '0' ++ natChars n).isEmpty) = false := rfl
      rw [hbody, htd]
      rw [decFrac_dot neg ['0'] _ _ [] (takeDigs_all _ hR)]
      rw [decTail_noexp neg ['0'] (List.replicate (-(e + L)).toNat '0' ++ natChars n) hguard]
      have hco : msbVal (['0'] ++ (List.replicate (-(e + L)).toNat '0' ++ natChars n)) = n := by
        rw [msbVal_append, msbVal_append, msbVal_replicate_zero, msbVal_natChars]
        norm_num
        rfl
      rw [hco]
      simp only [Option.some.injEq, Prod.mk.injEq, true_and]
      simp only [List.length_append, List.length_replicate]
      omega
    · by_cases he0 : e = 0
      · -- whole coefficient before the point, no fraction, no exponent
        have hbody : decBody (natChars n) (e + L) = natChars n := by
          unfold decBody
          rw [if_neg h0, if_pos (by omega)]
          have hz : (e + L - ((natChars n).length : Int)).toNat = 0 := by omega
          rw [hz]
          simp
        have hguard : ((natChars n).isEmpty && List.isEmpty ([] : List Char)) = false := by
          rw [natChars_isEmpty]
          rfl
        rw [hbody, takeDigs_all _ (natChars_all_isDig n), decFrac_nil,
          decTail_noexp neg (natChars n) [] hguard]
        simp only [List.append_nil, msbVal_natChars, List.length_nil, Nat.cast_zero,
          neg_zero, Option.some.injEq, Prod.mk.injEq, true_and]
        omega
      · -- point inside the coefficient digits, no exponent
        have hlt : e + L < L := by omega
        have hbody : decBody (natChars n) (e + L) =
            (natChars n).take (e + L).toNat ++
              '.' :: (natChars n).drop (e + L).toNat := by
          unfold decBody
          rw [if_neg h0, if_neg (by omega)]
        have htake : ∀ c ∈ (natChars n).take (e + L).toNat, isDig c = true :=
          fun c hc => natChars_all_isDig n c (List.mem_of_mem_take hc)
        have hdrop : ∀ c ∈ (natChars n).drop (e + L).toNat, isDig c = true :=
          fun c hc => natChars_all_isDig n c (List.mem_of_mem_drop hc)
        rw [hbody, takeDigs_append _ ('.' :: (natChars n).drop (e + L).toNat) htake rfl]
        rw [decFrac_dot neg _ _ _ [] (takeDigs_all _ hdrop)]
        have hfpne : (((natChars n).take (e + L).toNat).isEmpty &&
            ((natChars n).drop (e + L).toNat).isEmpty) = false := by
          have hd : ((natChars n).drop (e + L).toNat).isEmpty = false := by
            rw [List.isEmpty_eq_false]
            intro hnil
            have hlen := congrArg List.length hnil
            simp only [List.length_drop, List.length_nil] at hlen
            omega
          rw [hd, Bool.and_false]
        rw [decTail_noexp neg _ _ hfpne, List.take_append_drop, msbVal_natChars]
        simp only [Option.some.injEq, Prod.mk.injEq, true_and, List.length_drop]
        omega
  · -- scientific notation
    have hdp : decDotplace e L = 1 := if_neg hp
    have hne : e + L ≠ 1 := by
      rcases not_and_or.mp hp with h | h
      · omega
      · omega
    have hexp : decExpChars (e + L) 1 =
        'E' :: ((if e + L - 1 < 0 then ['-'] else ['+']) ++
          natChars (e + L - 1).natAbs) := by
      unfold decExpChars
      rw [if_neg hne]
    rw [hdp, hexp]
    by_cases hB : L ≤ 1
    · -- one coefficient digit, all of it before the exponent marker
      have hL1' : L = 1 := le_antisymm hB hL1
      have hbody : decBody (natChars n) 1 = natChars n := by
        unfold decBody
        rw [if_neg (by omega), if_pos (by omega)]
        have : ((1 : Int) - ((natChars n).length : Int)).toNat = 0 := by omega
        rw [this]
        simp
      have hguard : ((natChars n).isEmpty && List.isEmpty ([] : List Char)) = false := by
        rw [natChars_isEmpty]
        rfl
      rw [hbody,
        takeDigs_append _
          ('E' :: ((if e + L - 1 < 0 then ['-'] else ['+']) ++ natChars (e + L - 1).natAbs))
          (natChars_all_isDig n) rfl,
        decFrac_E, decTail_sci neg (natChars n) [] _ hguard]
      simp only [List.append_nil, msbVal_natChars, List.length_nil, Nat.cast_zero,
        Option.some.injEq, Prod.mk.injEq, true_and]
      omega
    · -- point after the first coefficient digit, then the exponent marker
      have hbody : decBody (natChars n) 1 =
          (natChars n).take 1 ++ '.' :: (natChars n).drop 1 := by
        unfold decBody
        rw [if_neg (by omega), if_neg (by omega)]
        rfl
      have htake : ∀ c ∈ (natChars n).take 1, isDig c = true :=
        fun c hc => natChars_all_isDig n c (List.mem_of_mem_take hc)
      have hdrop : ∀ c ∈ (natChars n).drop 1, isDig c = true :=
        fun c hc => natChars_all_isDig n c (List.mem_of_mem_drop hc)
      have hipne : (((natChars n).take 1).isEmpty &&
          ((natChars n).drop 1).isEmpty) = false := by
        have ht : ((natChars n).take 1).isEmpty = false := by
          rw [List.isEmpty_eq_false]
          intro hnil
          have hlen := congrArg List.length hnil
          simp only [List.length_take, List.length_nil] at hlen
          omega
        rw [ht, Bool.false_and]
      rw [hbody, List.append_assoc, List.cons_append,
        takeDigs_append _
          ('.' :: ((natChars n).drop 1 ++
            'E' :: ((if e + L - 1 < 0 then ['-'] else ['+']) ++ natChars (e + L - 1).natAbs)))
          htake rfl,
        decFrac_dot neg _ _ _ _
          (takeDigs_append _
            ('E' :: ((if e + L - 1 < 0 then ['-'] else ['+']) ++ natChars (e + L - 1).natAbs))
            hdrop rfl),
        decTail_sci neg _ _ _ hipne]
      rw [List.take_append_drop, msbVal_natChars]
      simp only [Option.some.injEq, Prod.mk.injEq, true_and, List.length_drop]
      omega

/-- Round trip of a finite Decimal through its str() text. -/
theorem parseDec_decChars (m e : Int) : parseDecChars (decChars m e) = some (m, e) := by
  unfold parseDecChars decChars
  by_cases hm : m < 0
  · rw [if_pos hm, List.singleton_append]
    have hs : ∀ r : List Char, splitSign ('-' :: r) = (true, r) := fun r => rfl
    rw [hs]
    have h := decFrac_decBody true m.natAbs e
    simp only at h
    rw [h, if_true]
    have hco : -((m.natAbs : Nat) : Int) = m := by omega
    rw [hco]
  · rw [if_neg hm, List.nil_append, splitSign_decBody]
    have h := decFrac_decBody false m.natAbs e
    simp only at h
    rw [h]
    have hco : (if ((false : Bool) = true) then -((m.natAbs : Nat) : Int)
        else ((m.natAbs : Nat) : Int)) = ((m.natAbs : Nat) : Int) := by
      simp
    rw [hco]
    have hco2 : ((m.natAbs : Nat) : Int) = m := by omega
    rw [hco2]

/-- Serialize-then-parse is the identity on entries whose optional fields
are all populated. -/
theorem parseRow_serializeEntry (e : Entry) (h : populatedEntry e = true) :
    parseRow field_names (serializeEntry e) = .ok e := by
  obtain ⟨idv, dtv, nmv, amv, rsv, tgv, flv⟩ := e
  simp only [populatedEntry, Bool.and_eq_true] at h
  obtain ⟨⟨⟨⟨⟨⟨hid, hdt⟩, hnm⟩, ham⟩, hrs⟩, htg⟩, hfl⟩ := h
  rcases idv with _ | sid | ⟨m1, e1⟩ | d1 | f1 <;> simp only [reduceCtorEq] at hid <;>
    try exact hid.elim
  rcases dtv with _ | s2 | ⟨m2, e2⟩ | dd | f2 <;> simp at hdt <;> try exact hdt.elim
  rcases nmv with _ | snm | ⟨m3, e3⟩ | d3 | f3 <;> simp at hnm <;> try exact hnm.elim
  rcases amv with _ | s4 | ⟨am, ae⟩ | d4 | f4 <;> simp at ham <;> try exact ham.elim
  rcases rsv with _ | srs | ⟨m5, e5⟩ | d5 | f5 <;> simp at hrs <;> try exact hrs.elim
  rcases tgv with _ | stg | ⟨m6, e6⟩ | d6 | f6 <;> simp at htg <;> try exact htg.elim
  rcases flv with _ | s7 | ⟨m7, e7⟩ | d7 | ff <;> simp at hfl <;> try exact hfl.elim
  have hmic : dd.micro < 1000000 := hdt
  cases ff <;>
    simp [parseRow, serializeEntry, strV, field_names, rowDict, dlookup, idField,
      dateTimeField, requiredStrField, amountField, tagField, flowField, flowStr,
      parseDT_dtChars dd hmic, parseDec_decChars am ae]

/-- A surviving seven-cell row is copied to the temporary file verbatim. -/
theorem rowOut_self (row : List String) (h : row.length = 7) :
    rowOut field_names row = .ok row := by
  rcases row with _ | ⟨a, _ | ⟨b, _ | ⟨c, _ | ⟨d, _ | ⟨e2, _ | ⟨f, _ | ⟨g, _ | ⟨x, t⟩⟩⟩⟩⟩⟩⟩⟩ <;>
    simp only [List.length_nil, List.length_cons] at h <;> try omega
  rfl

/-- parseRows keeps the number of rows. -/
theorem parseRows_length (header : List String) (rows : List (List String))
    (data : List Entry) (h : parseRows header rows = .ok data) :
    data.length = rows.length := by
  induction rows generalizing data with
  | nil =>
    simp only [parseRows, Except.ok.injEq] at h
    subst h
    rfl
  | cons r rs ih =>
    simp only [parseRows] at h
    cases hpr : parseRow header r with
    | error er => rw [hpr] at h; exact absurd h (by simp)
    | ok e2 =>
      rw [hpr] at h
      cases hps : parseRows header rs with
      | error er => rw [hps] at h; exact absurd h (by simp)
      | ok es =>
        rw [hps] at h
        simp only [Except.ok.injEq] at h
        subst h
        simp [ih es hps]

/-- Each schema field name resolves through getattr. -/
theorem getattrE_isSome (e : Entry) (f : String) (h : f ∈ field_names) :
    ∃ v, getattrE e f = some v := by
  simp only [field_names, List.mem_cons, List.not_mem_nil, or_false] at h
  rcases h with rfl | rfl | rfl | rfl | rfl | rfl | rfl <;> exact ⟨_, rfl⟩

/-- For a query on a schema field the delete test raises nothing and agrees
with the guarded match predicate. -/
theorem delMatch_query (e : Entry) (q : Query) (h : q.where_ ∈ field_names) :
    delMatch (.byQuery q) e = .ok (delPred (.byQuery q) e) := by
  obtain ⟨v, hv⟩ := getattrE_isSome e q.where_ h
  simp [delMatch, delPred, queryMatches, hv]

/-- The delete loop keeps exactly the rows whose parsed entry does not match
the condition, in order and verbatim. -/
theorem deleteRows_filter (cond : DelCond) (rows : List (List String))
    (data : List Entry) (hp : parseRows field_names rows = .ok data)
    (hlen : ∀ r ∈ rows, r.length = 7)
    (hm : ∀ x ∈ data, delMatch cond x = .ok (delPred cond x)) :
    deleteRows cond field_names rows =
      .ok (((rows.zip data).filter fun p => !delPred cond p.2).map Prod.fst) := by
  induction rows generalizing data with
  | nil =>
    simp only [parseRows, Except.ok.injEq] at hp
    subst hp
    rfl
  | cons r rs ih =>
    simp only [parseRows] at hp
    cases hpr : parseRow field_names r with
    | error er => rw [hpr] at hp; exact absurd hp (by simp)
    | ok e2 =>
      rw [hpr] at hp
      cases hps : parseRows field_names rs with
      | error er => rw [hps] at hp; exact absurd hp (by simp)
      | ok es =>
        rw [hps] at hp
        simp only [Except.ok.injEq] at hp
        subst hp
        have hm2 := hm e2 (List.mem_cons_self _ _)
        have ihh := ih es hps (fun x hx => hlen x (List.mem_cons_of_mem _ hx))
          (fun x hx => hm x (List.mem_cons_of_mem _ hx))
        simp only [deleteRows, hpr, hm2]
        by_cases hd : delPred cond e2
        · rw [hd]
          simp only [List.zip_cons_cons, List.filter_cons, hd, Bool.not_true,
            Bool.false_eq_true, if_false]
          exact ihh
        · rw [Bool.not_eq_true] at hd
          rw [hd]
          simp only [List.zip_cons_cons, List.filter_cons, hd, Bool.not_false, if_true]
          rw [rowOut_self r (hlen r (List.mem_cons_self _ _)), ihh]
          simp

/-- Length of the rows surviving a boolean filter. -/
theorem length_filter_not {α : Type} (p : α → Bool) (l : List α) :
    (l.filter fun x => !p x).length = l.length - (l.filter p).length := by
  induction l with
  | nil => rfl
  | cons a t ih =>
    have hle : (t.filter p).length ≤ t.length := List.length_filter_le p t
    by_cases h : p a
    · simp only [List.filter_cons, h, Bool.not_true, Bool.false_eq_true, if_false,
        if_true, List.length_cons, ih]
      omega
    · rw [Bool.not_eq_true] at h
      simp only [List.filter_cons, h, Bool.not_false, if_true, Bool.false_eq_true,
        if_false, List.length_cons, ih]
      omega

/-- Iterated writes over a file that already has its header only append. -/
theorem writeSeq_header (acc : List (List String)) (ess : List (List Entry)) :
    writeSeq (some (field_names :: acc)) ess =
      some (field_names :: (acc ++ (concatAll ess).map serializeEntry)) := by
  induction ess generalizing acc with
  | nil => simp [writeSeq, concatAll]
  | cons es rest ih =>
    simp only [writeSeq, write, Option.getD_some, List.isEmpty_cons, if_false,
      Bool.false_eq_true, List.cons_append]
    rw [ih]
    simp [concatAll, List.append_assoc]

/-! ### Claim theorems -/

/-- C9: read_all on a missing backing file signals the NotFound condition
(never an empty sequence), while delete on a missing file returns the failure
boolean without raising and leaves the state unchanged. -/
theorem missing_file_read_raises_delete_false :
    read_all none = .error .notFound ∧
      ∀ cond : DelCond, delete none cond = (none, .ok false) :=
  ⟨rfl, fun _ => rfl⟩

/-- C10: write on a missing backing file creates it (append-mode open),
writes the header row followed by one row per entry, and returns true. -/
theorem write_creates_missing_file (es : List Entry) :
    write none es = (some (field_names :: es.map serializeEntry), true) := rfl

/-- C8: a nonempty sequence of write calls starting from a fresh file (absent
or existing with size zero) yields exactly one header row followed by the
rows of all written entries in order, however the entries are batched; only
the call that sees the empty file adds the header. -/
theorem write_batches_single_header (es0 : List Entry) (rest : List (List Entry)) :
    writeSeq none (es0 :: rest) =
        some (field_names :: (concatAll (es0 :: rest)).map serializeEntry) ∧
      writeSeq (some []) (es0 :: rest) =
        some (field_names :: (concatAll (es0 :: rest)).map serializeEntry) := by
  constructor
  · show writeSeq (write none es0).1 rest = _
    rw [show (write none es0).1 = some (field_names :: es0.map serializeEntry) from rfl,
      writeSeq_header]
    simp [concatAll]
  · show writeSeq (write (some []) es0).1 rest = _
    rw [show (write (some []) es0).1 = some (field_names :: es0.map serializeEntry) from rfl,
      writeSeq_header]
    simp [concatAll]

/-- C3 counterexample: on a store whose file holds the header and zero data
rows, get_by returns the absent result, not the empty sequence the claim
requires. -/
theorem get_by_empty_store_absent :
    get_by (some [field_names]) ⟨"name", .vStr "x"⟩ = none ∧
      get_by (some [field_names]) ⟨"name", .vStr "x"⟩ ≠ some [] :=
  ⟨rfl, by decide⟩

/-- C3 (amended): when the backing file exists with the schema header and its
rows parse to at least one entry, get_by returns exactly the subsequence of
matching entries in file order (empty when nothing matches); it returns the
absent result when the store holds zero data rows or the underlying read
fails. -/
theorem get_by_filters_when_rows_exist (rows : List (List String))
    (data : List Entry) (q : Query)
    (hp : parseRows field_names rows = .ok data) (hne : data ≠ []) :
    get_by (some (field_names :: rows)) q =
      some (data.filter fun x => queryMatches x q.where_ q.value) := by
  unfold get_by
  rw [show read_all (some (field_names :: rows)) = parseRows field_names rows from rfl, hp]
  simp [List.isEmpty_eq_false.mpr hne]

/-- C3 witness: the amended theorem evaluated at a one-row store. -/
theorem get_by_filters_when_rows_exist_witness :
    get_by (some [field_names,
        ["id1", "2024-01-02 03:04:05", "Usr", "7", "r", "", "savings"]])
        ⟨"name", .vStr "Usr"⟩ =
      some (([⟨.vStr "id1", .vDT ⟨2024, 1, 2, 3, 4, 5, 0⟩, .vStr "Usr", .vDec 7 0,
        .vStr "r", .vStr "", .vFlow .savings⟩] : List Entry).filter
          fun x => queryMatches x "name" (.vStr "Usr")) :=
  get_by_filters_when_rows_exist _ _ _ (by decide) (by decide)

/-- C4 counterexample: a store holding one entry and a condition matching no
entry: update still reports success, refuting that it returns false when
there was nothing to update. -/
theorem update_no_match_returns_true :
    read_all (some [field_names,
        ["id1", "2024-01-02 03:04:05", "Spcl", "7", "r", "t", "credit"]]) =
        .ok [⟨.vStr "id1", .vDT ⟨2024, 1, 2, 3, 4, 5, 0⟩, .vStr "Spcl", .vDec 7 0,
          .vStr "r", .vStr "t", .vFlow .credit⟩] ∧
      queryMatches ⟨.vStr "id1", .vDT ⟨2024, 1, 2, 3, 4, 5, 0⟩, .vStr "Spcl", .vDec 7 0,
          .vStr "r", .vStr "t", .vFlow .credit⟩ "name" (.vStr "zzz") = false ∧
      (update (some [field_names,
          ["id1", "2024-01-02 03:04:05", "Spcl", "7", "r", "t", "credit"]])
        ⟨"name", .vStr "zzz", .vStr "w"⟩).2 = .ok true :=
  ⟨by decide, by decide, by decide⟩

/-- C4 (amended): update returns a success boolean, and it is false exactly
when the file was read as holding zero entries; whenever at least one entry
was read it returns true, whether or not any entry matched the condition. -/
theorem update_success_iff_rows_exist (fs : Option CsvFile) (c : UpdateCondition)
    (data : List Entry) (h : read_all fs = .ok data) :
    (update fs c).2 = .ok (!data.isEmpty) := by
  unfold update
  rw [h]
  cases hde : data.isEmpty <;> simp [hde]

/-- C4 witness: the amended theorem evaluated at a one-row store. -/
theorem update_success_iff_rows_exist_witness :
    (update (some [field_names,
        ["id1", "2024-01-02 03:04:05", "Spcl", "7", "r", "t", "credit"]])
        ⟨"name", .vStr "zzz", .vStr "w"⟩).2 =
      .ok (!(List.isEmpty [(⟨.vStr "id1", .vDT ⟨2024, 1, 2, 3, 4, 5, 0⟩, .vStr "Spcl",
        .vDec 7 0, .vStr "r", .vStr "t", .vFlow .credit⟩ : Entry)])) :=
  update_success_iff_rows_exist _ _ _ (by decide)

/-- C1: evaluating update on a one-row store whose row matches the condition:
because update persists through write, which opens the file in append mode,
the stored file keeps the original row unchanged and appends the mutated copy
after it, ending with two data rows (the first still carrying the old name)
instead of one rewritten row. -/
theorem update_appends_duplicate_data :
    (update (some [field_names,
        ["id1", "2024-01-02 03:04:05", "Spcl", "7", "r", "t", "credit"]])
        ⟨"name", .vStr "Spcl", .vStr "Not SO Spcl"⟩).1 =
      some [field_names,
        ["id1", "2024-01-02 03:04:05", "Spcl", "7", "r", "t", "credit"],
        ["id1", "2024-01-02 03:04:05", "Not SO Spcl", "7", "r", "t", "credit"]] := by
  decide

/-- C2: delete with a Query naming a field that does not exist on the Entry
record raises AttributeError and leaves the file unchanged, instead of
treating every row as non-matching: the delete path reads the attribute with
no hasattr guard, unlike get_by and update. -/
theorem delete_unknown_field_raises :
    delete (some [field_names,
        ["id1", "2024-01-02 03:04:05", "Spcl", "7", "r", "t", "credit"]])
        (.byQuery ⟨"nonexistent", .vStr "x"⟩) =
      (some [field_names,
        ["id1", "2024-01-02 03:04:05", "Spcl", "7", "r", "t", "credit"]],
        .error .attributeError) := by
  decide

/-- C5 counterexample: an entry whose optional tag is absent serializes to an
empty cell and parses back with tag equal to the empty string; the parsed
entry is not equal to the original, refuting the round trip for absent
optional fields. -/
theorem roundtrip_absent_tag_not_preserved :
    parseRow field_names (serializeEntry
        ⟨.vStr "id1", .vDT ⟨2024, 1, 2, 3, 4, 5, 0⟩, .vStr "n", .vDec 7 0,
          .vStr "r", .vNone, .vFlow .credit⟩) =
        .ok ⟨.vStr "id1", .vDT ⟨2024, 1, 2, 3, 4, 5, 0⟩, .vStr "n", .vDec 7 0,
          .vStr "r", .vStr "", .vFlow .credit⟩ ∧
      entryEqB ⟨.vStr "id1", .vDT ⟨2024, 1, 2, 3, 4, 5, 0⟩, .vStr "n", .vDec 7 0,
          .vStr "r", .vNone, .vFlow .credit⟩
        ⟨.vStr "id1", .vDT ⟨2024, 1, 2, 3, 4, 5, 0⟩, .vStr "n", .vDec 7 0,
          .vStr "r", .vStr "", .vFlow .credit⟩ = false :=
  ⟨by decide, by decide⟩

/-- C5 (amended): an entry whose fields hold their declared types with every
optional field populated serializes to a row that parses back to the entry
itself, equal in all fields: exact decimal amount, enum and populated
optionals preserved.  An absent tag or id instead comes back as the empty
string, and an absent date_time fails to parse. -/
theorem roundtrip_populated_entry (e : Entry) (h : populatedEntry e = true) :
    parseRow field_names (serializeEntry e) = .ok e :=
  parseRow_serializeEntry e h

/-- C5 witness: the amended round trip evaluated at a concrete entry. -/
theorem roundtrip_populated_entry_witness :
    populatedEntry ⟨.vStr "id9", .vDT ⟨2025, 12, 31, 23, 59, 58, 123456⟩, .vStr "Usr",
        .vDec (-45) (-1), .vStr "JFF", .vStr "tg", .vFlow .savings⟩ = true ∧
      parseRow field_names (serializeEntry
        ⟨.vStr "id9", .vDT ⟨2025, 12, 31, 23, 59, 58, 123456⟩, .vStr "Usr",
          .vDec (-45) (-1), .vStr "JFF", .vStr "tg", .vFlow .savings⟩) =
        .ok ⟨.vStr "id9", .vDT ⟨2025, 12, 31, 23, 59, 58, 123456⟩, .vStr "Usr",
          .vDec (-45) (-1), .vStr "JFF", .vStr "tg", .vFlow .savings⟩ :=
  ⟨by decide, roundtrip_populated_entry _ (by decide)⟩

/-- C6: delete with a Query on a schema field removes exactly the rows whose
parsed entry matches, keeps every other row verbatim and in original order
behind a fresh header (the temporary file that then replaces the original),
and reports success; the surviving row count is the original count minus the
matched count. -/
theorem delete_query_removes_matches (rows : List (List String))
    (data : List Entry) (q : Query)
    (hp : parseRows field_names rows = .ok data)
    (hlen : ∀ r ∈ rows, r.length = 7)
    (hf : q.where_ ∈ field_names) :
    delete (some (field_names :: rows)) (.byQuery q) =
        (some (field_names ::
          ((rows.zip data).filter fun p => !queryMatches p.2 q.where_ q.value).map
            Prod.fst),
          .ok true) ∧
      (((rows.zip data).filter fun p => !queryMatches p.2 q.where_ q.value).map
          Prod.fst).length =
        rows.length -
          ((rows.zip data).filter fun p => queryMatches p.2 q.where_ q.value).length := by
  have hdel := deleteRows_filter (.byQuery q) rows data hp hlen
    (fun x _ => delMatch_query x q hf)
  constructor
  · have hD : delete (some (field_names :: rows)) (.byQuery q) =
        match deleteRows (.byQuery q) field_names rows with
        | .ok out => (some (field_names :: out), .ok true)
        | .error er => (some (field_names :: rows), .error er) := rfl
    rw [hD, hdel]
    rfl
  · rw [List.length_map,
      length_filter_not (fun p : List String × Entry => queryMatches p.2 q.where_ q.value)]
    rw [List.length_zip, parseRows_length field_names rows data hp, Nat.min_self]

/-- C6 witness: the delete theorem evaluated on a two-row store, removing the
one matching row and keeping the other verbatim. -/
theorem delete_query_removes_matches_witness :
    delete (some [field_names,
          ["id1", "2024-01-02 03:04:05", "Spcl", "7", "r", "t", "credit"],
          ["id2", "2024-01-02 03:04:05", "Usr", "7", "r", "", "savings"]])
        (.byQuery ⟨"name", .vStr "Usr"⟩) =
        (some (field_names ::
          (([["id1", "2024-01-02 03:04:05", "Spcl", "7", "r", "t", "credit"],
             ["id2", "2024-01-02 03:04:05", "Usr", "7", "r", "", "savings"]].zip
            [⟨.vStr "id1", .vDT ⟨2024, 1, 2, 3, 4, 5, 0⟩, .vStr "Spcl", .vDec 7 0,
              .vStr "r", .vStr "t", .vFlow .credit⟩,
             ⟨.vStr "id2", .vDT ⟨2024, 1, 2, 3, 4, 5, 0⟩, .vStr "Usr", .vDec 7 0,
              .vStr "r", .vStr "", .vFlow .savings⟩]).filter
            fun p => !queryMatches p.2 "name" (.vStr "Usr")).map Prod.fst),
          .ok true) ∧
      ((([["id1", "2024-01-02 03:04:05", "Spcl", "7", "r", "t", "credit"],
          ["id2", "2024-01-02 03:04:05", "Usr", "7", "r", "", "savings"]].zip
        [⟨.vStr "id1", .vDT ⟨2024, 1, 2, 3, 4, 5, 0⟩, .vStr "Spcl", .vDec 7 0,
          .vStr "r", .vStr "t", .vFlow .credit⟩,
         ⟨.vStr "id2", .vDT ⟨2024, 1, 2, 3, 4, 5, 0⟩, .vStr "Usr", .vDec 7 0,
          .vStr "r", .vStr "", .vFlow .savings⟩]).filter
        fun p => !queryMatches p.2 "name" (.vStr "Usr")).map Prod.fst).length =
      ([["id1", "2024-01-02 03:04:05", "Spcl", "7", "r", "t", "credit"],
        ["id2", "2024-01-02 03:04:05", "Usr", "7", "r", "", "savings"]] :
          List (List String)).length -
        (([["id1", "2024-01-02 03:04:05", "Spcl", "7", "r", "t", "credit"],
           ["id2", "2024-01-02 03:04:05", "Usr", "7", "r", "", "savings"]].zip
          [⟨.vStr "id1", .vDT ⟨2024, 1, 2, 3, 4, 5, 0⟩, .vStr "Spcl", .vDec 7 0,
            .vStr "r", .vStr "t", .vFlow .credit⟩,
           ⟨.vStr "id2", .vDT ⟨2024, 1, 2, 3, 4, 5, 0⟩, .vStr "Usr", .vDec 7 0,
            .vStr "r", .vStr "", .vFlow .savings⟩]).filter
          fun p => queryMatches p.2 "name" (.vStr "Usr")).length :=
  delete_query_removes_matches _ _ _ (by decide) (by decide) (by decide)

/-- C7: delete with a concrete Entry condition removes exactly the rows whose
parsed id equals the id of the given entry; matching looks at the id alone,
so a stored entry equal in every other field but with a different id
survives. -/
theorem delete_entry_by_id_only (rows : List (List String)) (data : List Entry)
    (ent : Entry)
    (hp : parseRows field_names rows = .ok data)
    (hlen : ∀ r ∈ rows, r.length = 7) :
    delete (some (field_names :: rows)) (.byEntry ent) =
      (some (field_names ::
        ((rows.zip data).filter fun p => !pyEq p.2.id ent.id).map Prod.fst),
        .ok true) := by
  have hdel := deleteRows_filter (.byEntry ent) rows data hp hlen (fun x _ => rfl)
  have hD : delete (some (field_names :: rows)) (.byEntry ent) =
      match deleteRows (.byEntry ent) field_names rows with
      | .ok out => (some (field_names :: out), .ok true)
      | .error er => (some (field_names :: rows), .error er) := rfl
  rw [hD, hdel]
  rfl

/-- C7 witness: deleting by a concrete entry with id "idb" from a store whose
two rows agree in every field except the id removes only the row with id
"idb". -/
theorem delete_entry_by_id_only_witness :
    delete (some [field_names,
          ["ida", "2024-01-02 03:04:05", "Usr", "7", "r", "", "credit"],
          ["idb", "2024-01-02 03:04:05", "Usr", "7", "r", "", "credit"]])
        (.byEntry ⟨.vStr "idb", .vDT ⟨2024, 1, 2, 3, 4, 5, 0⟩, .vStr "Usr", .vDec 7 0,
          .vStr "r", .vStr "", .vFlow .credit⟩) =
      (some (field_names ::
        (([["ida", "2024-01-02 03:04:05", "Usr", "7", "r", "", "credit"],
           ["idb", "2024-01-02 03:04:05", "Usr", "7", "r", "", "credit"]].zip
          ([⟨.vStr "ida", .vDT ⟨2024, 1, 2, 3, 4, 5, 0⟩, .vStr "Usr", .vDec 7 0,
            .vStr "r", .vStr "", .vFlow .credit⟩,
           ⟨.vStr "idb", .vDT ⟨2024, 1, 2, 3, 4, 5, 0⟩, .vStr "Usr", .vDec 7 0,
            .vStr "r", .vStr "", .vFlow .credit⟩] : List Entry)).filter
          fun p => !pyEq p.2.id (Value.vStr "idb")).map Prod.fst),
        .ok true) :=
  delete_entry_by_id_only _ _ _ (by decide) (by decide)

end Accountant
